import Mathlib

/-!
# Verification of the FileWatcher engine (src/FileWatcher.ts)

Shallow embedding of the `FileWatcher` class. Conventions:

* Filesystem paths are POSIX. A path string is represented by `FileWatcherSpec.Path`:
  `isAbs` records whether the string starts with `/`, and `comps` is the list of
  path components ("/a/b" is `⟨true, ["a","b"]⟩`, the root "/" is `⟨true, []⟩`,
  "./test" is `⟨false, [".", "test"]⟩`). Components are assumed free of path
  separators; canonical absolute paths have components free of "", "." and "..".
* JavaScript `Map` is an insertion-ordered association list (`mapGet`/`mapSet`),
  JavaScript `Set` an insertion-ordered duplicate-free list (`setAdd`/`setDelete`).
* Handler callbacks are opaque values carrying an identifier and, to model the
  exception behaviour of a call, an optional error they raise when invoked.
* `handleEvent` returns a `DispatchResult` recording the generic emissions, the
  targeted handler invocation (if any) and the exception escaping the call, since
  the method mutates no instance state.
-/

namespace FileWatcherSpec

/-- Lookup in an insertion-ordered association list (JavaScript `Map.get`). -/
def mapGet {α β : Type} [DecidableEq α] : List (α × β) → α → Option β
  | [], _ => none
  | (k', v) :: rest, k => if k' = k then some v else mapGet rest k

/-- Update-or-append in an association list (JavaScript `Map.set`): an existing
key is overwritten in place, a new key is appended at the end. -/
def mapSet {α β : Type} [DecidableEq α] : List (α × β) → α → β → List (α × β)
  | [], k, v => [(k, v)]
  | (k', v') :: rest, k, v =>
      if k' = k then (k', v) :: rest else (k', v') :: mapSet rest k v

/-- JavaScript `Set.add`: appends the element unless already present. -/
def setAdd {α : Type} [DecidableEq α] (s : List α) (x : α) : List α :=
  if x ∈ s then s else s ++ [x]

/-- JavaScript `Set.delete`: removes the (single) occurrence of the element. -/
def setDelete {α : Type} [DecidableEq α] : List α → α → List α
  | [], _ => []
  | y :: rest, x => if y = x then rest else y :: setDelete rest x

/-- `new Set(list)`: insertion-ordered deduplication of a list. -/
def listToSet {α : Type} [DecidableEq α] (l : List α) : List α :=
  l.foldl setAdd []

/-- The three raw event kinds `"add" | "change" | "unlink"`. -/
inductive EventType : Type where
  | add : EventType
  | change : EventType
  | unlink : EventType
deriving DecidableEq, Repr

/-- An opaque user callback: `hid` identifies it, `throws` is the exception it
raises when invoked (`none` for a callback that returns normally). -/
structure Handler : Type where
  hid : Nat
  throws : Option String := none
deriving DecidableEq, Repr

/-- A POSIX path string: `isAbs` is whether the string starts with `/`, `comps`
its slash-separated components. -/
structure Path : Type where
  isAbs : Bool
  comps : List String
deriving DecidableEq, Repr

/-- Node `path.dirname` on the `Path` representation: drops the last component;
fixed points are the root `⟨true, []⟩` and the relative dot `⟨false, ["."]⟩`
(Node: `dirname "/" = "/"`, `dirname "." = "."`, `dirname "a" = "."`). -/
def Path.dirname : Path → Path
  | ⟨true, cs⟩ => ⟨true, cs.dropLast⟩
  | ⟨false, []⟩ => ⟨false, ["."]⟩
  | ⟨false, [_]⟩ => ⟨false, ["."]⟩
  | ⟨false, cs⟩ => ⟨false, cs.dropLast⟩

/-- Node `path.basename`: the last component (empty for the root). -/
def basename (p : Path) : String :=
  (p.comps.getLast?).getD ("")

/-- `path.join(directory, name)` for a clean single component: appends it. -/
def Path.child (p : Path) (name : String) : Path :=
  ⟨p.isAbs, p.comps ++ [name]⟩

/-- Helper for `extname`: the suffix starting at the last `'.'` of the list,
if any. -/
def lastDotSuffix : List Char → Option (List Char)
  | [] => none
  | c :: rest =>
      match lastDotSuffix rest with
      | some s => some s
      | none => if c = '.' then some (c :: rest) else none

/-- Node `path.extname` on a basename: the suffix from the last dot, where a
dot in first position (hidden files like ".gitignore") does not count. -/
def extname (name : String) : String :=
  match name.toList with
  | [] => ""
  | _ :: rest =>
      match lastDotSuffix rest with
      | some s => String.mk s
      | none => ""

/-- JavaScript `String.prototype.toLowerCase`, implemented over the character
list (extensionally `String.toLower`, stated this way so the kernel evaluates it). -/
def lowerString (s : String) : String :=
  String.mk (s.toList.map Char.toLower)

/-- The lowercased extension of a raw file path, exactly as `handleEvent`
computes it: `path.extname(path.basename(filePath)).toLowerCase()`. -/
def extensionOf (p : Path) : String :=
  lowerString (extname (basename p))

/-- One segment of `path.resolve` normalization: "." and empty segments are
skipped, ".." pops the last kept segment (staying at the root when empty). -/
def normStep (acc : List String) (c : String) : List String :=
  if c = "." ∨ c = "" then acc
  else if c = ".." then acc.dropLast
  else acc ++ [c]

/-- Normalization of `path.resolve`: process the segments left to right. -/
def normalize (comps : List String) : List String :=
  comps.foldl normStep []

/-- Node `path.resolve(base, p)` with `base` the components of the absolute
base directory: an absolute `p` is normalized as is, a relative `p` is
appended to the base and normalized. -/
def resolve (base : List String) (p : Path) : Path :=
  if p.isAbs then ⟨true, normalize p.comps⟩ else ⟨true, normalize (base ++ p.comps)⟩

/-- Strips the common prefix of two component lists (helper for `pathRelative`). -/
def dropCommon : List String → List String → List String × List String
  | a :: as, b :: bs => if a = b then dropCommon as bs else (a :: as, b :: bs)
  | as, bs => (as, bs)

/-- Node `path.relative(base, target)` on components of two absolute paths:
strip the common prefix, one ".." per remaining base component, then the
remaining target components. -/
def pathRelative (base target : List String) : List String :=
  let p := dropCommon base target
  List.replicate p.1.length ("..") ++ p.2

/-- Termination measure for the `while (currentDir !== path.dirname(currentDir))`
loop: `Path.dirname` strictly decreases it away from its fixed points. -/
def Path.walkRank : Path → Nat
  | ⟨true, cs⟩ => cs.length
  | ⟨false, cs⟩ => cs.length + (if cs = ["."] then 0 else 2)

theorem walkRank_dirname_lt (p : Path) (h : p ≠ Path.dirname p) :
    (Path.dirname p).walkRank < p.walkRank := by
  obtain ⟨b, cs⟩ := p
  cases b with
  | true =>
    cases cs with
    | nil => simp [Path.dirname] at h
    | cons c rest =>
      simp only [Path.dirname, Path.walkRank]
      rw [List.length_dropLast]
      simp
  | false =>
    cases cs with
    | nil => simp [Path.dirname, Path.walkRank]
    | cons c rest =>
      cases rest with
      | nil =>
        simp only [Path.dirname] at h
        have hc : c ≠ "." := by
          intro hc
          exact h (by rw [hc])
        simp [Path.dirname, Path.walkRank, hc]
      | cons c2 rest2 =>
        have hne : (c :: c2 :: rest2) ≠ ["."] := by simp
        have hlen : (c :: c2 :: rest2).dropLast.length < (c :: c2 :: rest2).length := by
          rw [List.length_dropLast]; simp
        simp only [Path.dirname, Path.walkRank, if_neg hne]
        split <;> omega

/-- Fueled form of the ancestor walk; `walkRank` units of fuel always suffice
(`ancestorChainAux_stable`). -/
def ancestorChainAux : Nat → Path → List Path
  | 0, _ => []
  | fuel + 1, p =>
      if p = Path.dirname p then [] else p :: ancestorChainAux fuel (Path.dirname p)

/-- The sequence of directories visited by the handler-resolution loop: the
directory itself, then its ancestors, stopping before the fixed point of
`dirname` (the filesystem root, or "." for relative paths). -/
def ancestorChain (p : Path) : List Path :=
  ancestorChainAux p.walkRank p

/-- The two-level handler table `directory → (eventKind → callback)`. -/
abbrev HandlerTable : Type := List (Path × List (EventType × Handler))

/-- The body of one iteration of the `findHandler` loop: look up the current
directory's handler map, then the event kind in it. -/
def tableHit (tbl : HandlerTable) (eventType : EventType) (directory : Path) :
    Option Handler :=
  (mapGet tbl directory).bind (fun handlers => mapGet handlers eventType)

/-- Fueled form of `findHandler`; the loop decreases `walkRank`, so `walkRank`
units of fuel always suffice (`findHandlerAux_stable`). -/
def findHandlerAux (tbl : HandlerTable) (eventType : EventType) :
    Nat → Path → Option Handler
  | 0, _ => none
  | fuel + 1, directory =>
      if directory = Path.dirname directory then none
      else
        match tableHit tbl eventType directory with
        | some cb => some cb
        | none => findHandlerAux tbl eventType fuel (Path.dirname directory)

/-- Embeds `findHandler`:
```
let currentDir = directory;
while (currentDir !== path.dirname(currentDir)) {
    if (this.dirHandlers.has(currentDir)) {
        const handlers = this.dirHandlers.get(currentDir);
        if (handlers && handlers.has(eventType)) return handlers.get(eventType);
    }
    currentDir = path.dirname(currentDir);
}
return undefined;
``` -/
def findHandler (tbl : HandlerTable) (directory : Path) (eventType : EventType) :
    Option Handler :=
  findHandlerAux tbl eventType directory.walkRank directory

/-- The first hit of a lookup function along a list of directories. -/
def firstHit (g : Path → Option Handler) : List Path → Option Handler
  | [] => none
  | d :: rest =>
      match g d with
      | some cb => some cb
      | none => firstHit g rest

/-- The mutable fields of a `FileWatcher` instance. `baseDir` holds the
components of the absolute working directory (`process.cwd()`); `watchers`
is the key set of the `Map<string, FSWatcher>` (the `FSWatcher` objects
themselves are external); `ignoredDirectories` keeps the raw strings passed to
`ignoreDirectory`. -/
structure FileWatcher : Type where
  baseDir : List String
  watchers : List Path := []
  dirHandlers : HandlerTable := []
  ignoredDirectories : List String := []
  allowedExtensions : List String := []
  monitoredDirectories : List Path := []
  initialFiles : List Path := []
deriving DecidableEq, Repr

/-- Renders an absolute path's components back to its string. -/
def renderAbs (cs : List String) : String :=
  "/" ++ String.intercalate ("/") cs

/-- JavaScript truthiness of a string: every non-empty string is truthy. -/
def jsTruthy (s : String) : Bool :=
  s ≠ ""

/-- Embeds the `ignored` option installed on each chokidar watcher:
```
ignored: () => {
    for (const ignoredDir of this.ignoredDirectories) {
        if (this.baseDir + '/' + ignoredDir) { return true; }
    }
    return false;
}
```
The arrow function takes no parameter, so the candidate path chokidar passes is
unused, and the `if` condition is a string, tested for truthiness. -/
def ignoredPredicate (w : FileWatcher) (_candidatePath : String) : Bool :=
  w.ignoredDirectories.any
    (fun ignoredDir => jsTruthy (renderAbs w.baseDir ++ "/" ++ ignoredDir))

/-- Modelled from the spec: "an ignore predicate that evaluates, for every
candidate path, whether it lies under any directory in IgnoreSet". A candidate
lies under a directory when that directory's components are a prefix of the
candidate's (same absoluteness). This is the specified predicate, to be compared
with `ignoredPredicate`, the one the source installs. -/
def specIgnoresCandidate (ignoreSet : List Path) (candidate : Path) : Bool :=
  ignoreSet.any
    (fun d => d.isAbs = candidate.isAbs && d.comps.isPrefixOf candidate.comps)

/-- Embeds `watchDirectory`: idempotent registration of a subscription. The
chokidar watcher construction is external; the registry records the key. -/
def watchDirectory (w : FileWatcher) (directory : Path) : FileWatcher :=
  if directory ∈ w.watchers then w
  else { w with watchers := w.watchers ++ [directory] }

/-- The observable outcome of one `handleEvent` call: the generic emissions
`emit(eventType, directory, filename, relativePath)`, the targeted handler
invocation with its arguments, and the exception escaping the call (the source
installs no catch around the callback). -/
structure DispatchResult : Type where
  emissions : List (EventType × Path × String × Path)
  invoked : Option (Handler × Path × String × Path × EventType)
  raised : Option String
deriving DecidableEq, Repr

/-- The result of a dropped event: nothing emitted, nobody invoked. -/
def emptyResult : DispatchResult :=
  ⟨[], none, none⟩

/-- Embeds the `relativePath` computation of `handleEvent`:
```
path.relative(this.baseDir, filePath).replace(new RegExp(`[\\\\/]${filename}$`), '')
```
followed by the emission argument `` `${this.baseDir}/` + relativePath ``.
`path.relative` resolves both arguments first; its string output is the
components joined with "/". The regex matches exactly when that string ends
with a separator followed by `filename`, i.e. (for components free of
separators and a `filename` free of regex metacharacters) when the relative
component list has at least two entries and ends with `filename`; the
replacement deletes that tail. The final string concatenation appends the
surviving components to the base directory. -/
def emittedRelativePath (base : List String) (filePath : Path) (filename : String) :
    Path :=
  let rel := pathRelative base (resolve base filePath).comps
  let stripped :=
    if 2 ≤ rel.length ∧ rel.getLast? = some filename then rel.dropLast else rel
  ⟨true, base ++ stripped⟩

/-- The emit-and-invoke tail of `handleEvent`, after both filters:
```
this.emit(eventType, directory, filename, `${this.baseDir}/` + relativePath);
const handler = this.findHandler(directory, eventType);
if (handler) handler(directory, filename, `${this.baseDir}/` + relativePath, eventType);
``` -/
def dispatch (w : FileWatcher) (eventType : EventType) (directory : Path)
    (filename : String) (relativePath : Path) : DispatchResult :=
  match findHandler w.dirHandlers directory eventType with
  | none => ⟨[(eventType, directory, filename, relativePath)], none, none⟩
  | some cb =>
      ⟨[(eventType, directory, filename, relativePath)],
        some (cb, directory, filename, relativePath, eventType), cb.throws⟩

/-- The part of `handleEvent` after the extension filter: the initial-scan
suppression `if (this.initialFiles.has(filePath) && eventType === "add") return;`
and then the dispatch. -/
def afterExtensionFilter (w : FileWatcher) (eventType : EventType) (directory : Path)
    (filePath : Path) (filename : String) (relativePath : Path) : DispatchResult :=
  if filePath ∈ w.initialFiles ∧ eventType = EventType.add then emptyResult
  else dispatch w eventType directory filename relativePath

/-- Embeds `handleEvent(eventType, directory, filePath)`: derive `filename`,
`extension` and `relativePath` (the source binds them to locals first; they are
inlined here), apply the extension filter
`if (this.allowedExtensions.size > 0 && !this.allowedExtensions.has(extension)) return;`,
then the initial-scan suppression, then emit and invoke. -/
def handleEvent (w : FileWatcher) (eventType : EventType) (directory : Path)
    (filePath : Path) : DispatchResult :=
  if w.allowedExtensions ≠ [] ∧ extensionOf filePath ∉ w.allowedExtensions then
    emptyResult
  else
    afterExtensionFilter w eventType directory filePath (basename filePath)
      (emittedRelativePath w.baseDir filePath (basename filePath))

/-- A snapshot of a directory's contents as seen through `fs.readdirSync` and
`fs.statSync(..).isDirectory()`: each entry is a name together with either a
plain file or a subdirectory with its own contents. -/
inductive FsNode : Type where
  | file : FsNode
  | dir : List (String × FsNode) → FsNode

mutual

/-- The regular-file paths collected by the recursive walk of
`captureInitialFiles`, in traversal order:
```
const files = fs.readdirSync(directory);
for (const file of files) {
    const fullPath = path.join(directory, file);
    if (fs.statSync(fullPath).isDirectory()) { this.captureInitialFiles(fullPath); }
    else { this.initialFiles.add(fullPath); }
}
``` -/
def captureFrom (directory : Path) : List (String × FsNode) → List Path
  | [] => []
  | (name, node) :: rest =>
      captureNode (directory.child name) node ++ captureFrom directory rest

def captureNode (fullPath : Path) : FsNode → List Path
  | FsNode.file => [fullPath]
  | FsNode.dir children => captureFrom fullPath children

end

/-- Embeds `captureInitialFiles(directory)`: adds every file of the walk to
`initialFiles`. The directory's tree is supplied explicitly, the filesystem
being external. -/
def captureInitialFiles (w : FileWatcher) (directory : Path)
    (contents : List (String × FsNode)) : FileWatcher :=
  { w with initialFiles := (captureFrom directory contents).foldl setAdd w.initialFiles }

/-- The effective directory set of `startWatching`:
`this.monitoredDirectories.size > 0 ? this.monitoredDirectories : new Set([this.baseDir])`. -/
def effectiveDirectories (w : FileWatcher) : List Path :=
  if w.monitoredDirectories ≠ [] then w.monitoredDirectories else [⟨true, w.baseDir⟩]

/-- Embeds `startWatching()`: snapshot every effective directory, then watch
each of them. `fsTree` gives each directory's contents (the external filesystem). -/
def startWatching (fsTree : Path → List (String × FsNode)) (w : FileWatcher) :
    FileWatcher :=
  let directories := effectiveDirectories w
  let w1 := directories.foldl (fun acc d => captureInitialFiles acc d (fsTree d)) w
  directories.foldl (fun acc d => watchDirectory acc d) w1

/-- Embeds `stopWatching()`: every watcher is closed (the list of closed
subscriptions is returned alongside) and the registry is cleared. -/
def stopWatching (w : FileWatcher) : FileWatcher × List Path :=
  ({ w with watchers := [] }, w.watchers)

/-- Embeds `setHandler(directory, eventType, callback)`: the raw `directory`
argument is used as the key (the source performs no path resolution here),
the `(eventType → callback)` entry is stored, overwriting any previous one,
and `watchDirectory(directory)` is called. -/
def setHandler (w : FileWatcher) (directory : Path) (eventType : EventType)
    (callback : Handler) : FileWatcher :=
  let handlers := (mapGet w.dirHandlers directory).getD []
  let w1 := { w with
    dirHandlers := mapSet w.dirHandlers directory (mapSet handlers eventType callback) }
  watchDirectory w1 directory

/-- The callback registered for exactly the pair `(directory, eventKind)`. -/
def handlerAt (w : FileWatcher) (directory : Path) (eventType : EventType) :
    Option Handler :=
  (mapGet w.dirHandlers directory).bind (fun handlers => mapGet handlers eventType)

/-- The warning printed by `ignoreDirectory` for a missing directory (verbatim,
typo included). -/
def ignoreWarning (dir : String) : String :=
  "Directory " ++ dir ++ " doesr not exist, ignoring it will not work."

/-- The warning printed by `unignoreDirectory` for a directory not ignored. -/
def unignoreWarning (dir : String) : String :=
  "Directory " ++ dir ++ " is not ignored."

/-- Embeds `ignoreDirectory(...directory)`: for each argument, a directory that
does not exist (per `fs.existsSync`, supplied externally) only produces a
warning, an existing one is added to the ignore set. Returns the new state and
the warnings printed. -/
def ignoreDirectory (fsExists : String → Bool) (w : FileWatcher)
    (directory : List String) : FileWatcher × List String :=
  directory.foldl
    (fun acc dir =>
      if fsExists dir then
        ({ acc.1 with ignoredDirectories := setAdd acc.1.ignoredDirectories dir }, acc.2)
      else
        (acc.1, acc.2 ++ [ignoreWarning dir]))
    (w, [])

/-- Embeds `unignoreDirectory(...directory)`: a currently ignored directory is
removed from the ignore set, any other only produces a warning. -/
def unignoreDirectory (w : FileWatcher) (directory : List String) :
    FileWatcher × List String :=
  directory.foldl
    (fun acc dir =>
      if dir ∈ acc.1.ignoredDirectories then
        ({ acc.1 with ignoredDirectories := setDelete acc.1.ignoredDirectories dir }, acc.2)
      else
        (acc.1, acc.2 ++ [unignoreWarning dir]))
    (w, [])

/-- Embeds `setAllowedExtensions(...extensions)`: the set is replaced wholesale
by the lowercased arguments. -/
def setAllowedExtensions (w : FileWatcher) (extensions : List String) : FileWatcher :=
  { w with allowedExtensions := listToSet (extensions.map lowerString) }

/-- Embeds `setMonitoredDirectories(...directories)`: the set is replaced
wholesale by the arguments resolved against the base directory. -/
def setMonitoredDirectories (w : FileWatcher) (directories : List Path) : FileWatcher :=
  { w with monitoredDirectories := listToSet (directories.map (resolve w.baseDir)) }

/-! ## Lemmas about the ancestor walk -/

theorem walkRank_pos_of_ne (p : Path) (h : p ≠ Path.dirname p) : 1 ≤ p.walkRank := by
  obtain ⟨b, cs⟩ := p
  cases b with
  | true =>
    cases cs with
    | nil => simp [Path.dirname] at h
    | cons c rest => simp [Path.walkRank]
  | false =>
    cases cs with
    | nil => simp [Path.walkRank]
    | cons c rest => simp [Path.walkRank]; omega

theorem ancestorChainAux_fixed (fuel : Nat) (p : Path) (h : p = Path.dirname p) :
    ancestorChainAux fuel p = [] := by
  cases fuel with
  | zero => rfl
  | succ n => simp only [ancestorChainAux, if_pos h]

theorem findHandlerAux_fixed (tbl : HandlerTable) (et : EventType) (fuel : Nat)
    (p : Path) (h : p = Path.dirname p) : findHandlerAux tbl et fuel p = none := by
  cases fuel with
  | zero => rfl
  | succ n => simp only [findHandlerAux, if_pos h]

theorem ancestorChainAux_stable (f1 : Nat) :
    ∀ (f2 : Nat) (p : Path), p.walkRank ≤ f1 → p.walkRank ≤ f2 →
      ancestorChainAux f1 p = ancestorChainAux f2 p := by
  induction f1 with
  | zero =>
    intro f2 p h1 _
    have h0 : p.walkRank = 0 := Nat.le_zero.mp h1
    have hfix : p = Path.dirname p := by
      by_contra hne
      have := walkRank_pos_of_ne p hne
      omega
    rw [ancestorChainAux_fixed 0 p hfix, ancestorChainAux_fixed f2 p hfix]
  | succ n ih =>
    intro f2 p h1 h2
    by_cases hfix : p = Path.dirname p
    · rw [ancestorChainAux_fixed _ p hfix, ancestorChainAux_fixed f2 p hfix]
    · have hpos : 1 ≤ p.walkRank := walkRank_pos_of_ne p hfix
      obtain ⟨m, rfl⟩ : ∃ m, f2 = m + 1 := by
        cases f2 with
        | zero => omega
        | succ m => exact ⟨m, rfl⟩
      have hlt := walkRank_dirname_lt p hfix
      simp only [ancestorChainAux, if_neg hfix]
      rw [ih m (Path.dirname p) (by omega) (by omega)]

theorem findHandlerAux_stable (tbl : HandlerTable) (et : EventType) (f1 : Nat) :
    ∀ (f2 : Nat) (p : Path), p.walkRank ≤ f1 → p.walkRank ≤ f2 →
      findHandlerAux tbl et f1 p = findHandlerAux tbl et f2 p := by
  induction f1 with
  | zero =>
    intro f2 p h1 _
    have h0 : p.walkRank = 0 := Nat.le_zero.mp h1
    have hfix : p = Path.dirname p := by
      by_contra hne
      have := walkRank_pos_of_ne p hne
      omega
    rw [findHandlerAux_fixed tbl et 0 p hfix, findHandlerAux_fixed tbl et f2 p hfix]
  | succ n ih =>
    intro f2 p h1 h2
    by_cases hfix : p = Path.dirname p
    · rw [findHandlerAux_fixed tbl et _ p hfix, findHandlerAux_fixed tbl et f2 p hfix]
    · have hpos : 1 ≤ p.walkRank := walkRank_pos_of_ne p hfix
      obtain ⟨m, rfl⟩ : ∃ m, f2 = m + 1 := by
        cases f2 with
        | zero => omega
        | succ m => exact ⟨m, rfl⟩
      have hlt := walkRank_dirname_lt p hfix
      simp only [findHandlerAux, if_neg hfix]
      cases tableHit tbl et p with
      | none => exact ih m (Path.dirname p) (by omega) (by omega)
      | some cb => rfl

theorem ancestorChain_fixed (p : Path) (h : p = Path.dirname p) :
    ancestorChain p = [] :=
  ancestorChainAux_fixed p.walkRank p h

theorem ancestorChain_cons (p : Path) (h : p ≠ Path.dirname p) :
    ancestorChain p = p :: ancestorChain (Path.dirname p) := by
  have hpos : 1 ≤ p.walkRank := walkRank_pos_of_ne p h
  have hlt := walkRank_dirname_lt p h
  obtain ⟨m, hm⟩ : ∃ m, p.walkRank = m + 1 := by
    cases hr : p.walkRank with
    | zero => omega
    | succ m => exact ⟨m, rfl⟩
  unfold ancestorChain
  rw [hm]
  simp only [ancestorChainAux, if_neg h]
  rw [ancestorChainAux_stable m _ (Path.dirname p) (by omega) (le_refl _)]

/-- The loop of `findHandler` visits exactly `ancestorChain directory` and
returns the first registered callback on that walk. -/
theorem findHandler_eq_firstHit (tbl : HandlerTable) (p : Path) (et : EventType) :
    findHandler tbl p et = firstHit (tableHit tbl et) (ancestorChain p) := by
  suffices h : ∀ (fuel : Nat) (q : Path), q.walkRank ≤ fuel →
      findHandlerAux tbl et fuel q = firstHit (tableHit tbl et) (ancestorChainAux fuel q) by
    exact h p.walkRank p (le_refl _)
  intro fuel
  induction fuel with
  | zero => intro q _; rfl
  | succ n ih =>
    intro q hq
    by_cases hfix : q = Path.dirname q
    · rw [ancestorChainAux_fixed _ _ hfix, findHandlerAux_fixed tbl et _ _ hfix]
      rfl
    · have hlt := walkRank_dirname_lt q hfix
      simp only [ancestorChainAux, findHandlerAux, if_neg hfix, firstHit]
      cases tableHit tbl et q with
      | none => exact ih (Path.dirname q) (by omega)
      | some cb => rfl

/-! ## Lemmas about maps and sets -/

theorem mapGet_mapSet_self {α β : Type} [DecidableEq α] (m : List (α × β)) (k : α)
    (v : β) : mapGet (mapSet m k v) k = some v := by
  induction m with
  | nil => simp [mapSet, mapGet]
  | cons kv rest ih =>
    obtain ⟨k', v'⟩ := kv
    by_cases h : k' = k
    · simp [mapSet, mapGet, h]
    · simp [mapSet, mapGet, h, ih]

theorem mapGet_mapSet_ne {α β : Type} [DecidableEq α] (m : List (α × β)) (k k' : α)
    (v : β) (h : k' ≠ k) : mapGet (mapSet m k v) k' = mapGet m k' := by
  induction m with
  | nil =>
    simp only [mapSet, mapGet]
    rw [if_neg (Ne.symm h)]
  | cons kv rest ih =>
    obtain ⟨k0, v0⟩ := kv
    simp only [mapSet]
    by_cases h0 : k0 = k
    · rw [if_pos h0]
      subst h0
      simp only [mapGet, if_neg (Ne.symm h)]
    · rw [if_neg h0]
      simp only [mapGet]
      by_cases h1 : k0 = k'
      · rw [if_pos h1, if_pos h1]
      · rw [if_neg h1, if_neg h1]
        exact ih

theorem mem_setAdd_of_mem {α : Type} [DecidableEq α] {s : List α} {x : α} (y : α)
    (h : x ∈ s) : x ∈ setAdd s y := by
  unfold setAdd
  split
  · exact h
  · exact List.mem_append_left _ h

theorem mem_setAdd_self {α : Type} [DecidableEq α] (s : List α) (x : α) :
    x ∈ setAdd s x := by
  unfold setAdd
  split
  · assumption
  · exact List.mem_append_right _ (List.mem_singleton.mpr rfl)

theorem mem_foldl_setAdd_of_mem {α : Type} [DecidableEq α] {s : List α} {x : α}
    (l : List α) (h : x ∈ s) : x ∈ l.foldl setAdd s := by
  induction l generalizing s with
  | nil => exact h
  | cons y rest ih => exact ih (mem_setAdd_of_mem y h)

theorem mem_foldl_setAdd_of_mem_list {α : Type} [DecidableEq α] (s : List α) {x : α}
    {l : List α} (h : x ∈ l) : x ∈ l.foldl setAdd s := by
  induction l generalizing s with
  | nil => cases h
  | cons y rest ih =>
    rcases List.mem_cons.mp h with h1 | h2
    · subst h1
      exact mem_foldl_setAdd_of_mem rest (mem_setAdd_self s x)
    · exact ih _ h2

/-! ## Lemmas about path arithmetic -/

/-- A canonical path component: non-empty and neither of the special segments. -/
def cleanComponent (c : String) : Prop :=
  c ≠ "" ∧ c ≠ "." ∧ c ≠ ".."

instance (c : String) : Decidable (cleanComponent c) :=
  inferInstanceAs (Decidable (c ≠ "" ∧ c ≠ "." ∧ c ≠ ".."))

theorem dropCommon_append (b r : List String) : dropCommon b (b ++ r) = ([], r) := by
  induction b with
  | nil => rfl
  | cons a as ih => simp [dropCommon, ih]

theorem pathRelative_append (b r : List String) : pathRelative b (b ++ r) = r := by
  simp [pathRelative, dropCommon_append]

theorem foldl_normStep_clean (cs : List String) (h : ∀ c ∈ cs, cleanComponent c) :
    ∀ acc, cs.foldl normStep acc = acc ++ cs := by
  induction cs with
  | nil => intro acc; simp
  | cons c rest ih =>
    intro acc
    obtain ⟨h1, h2, h3⟩ := h c (List.mem_cons_self c rest)
    simp only [List.foldl, normStep]
    rw [if_neg (fun hor => hor.elim h2 h1), if_neg h3,
      ih (fun c' hc' => h c' (List.mem_cons_of_mem c hc')) (acc ++ [c])]
    simp

theorem normalize_clean (cs : List String) (h : ∀ c ∈ cs, cleanComponent c) :
    normalize cs = cs := by
  unfold normalize
  rw [foldl_normStep_clean cs h []]
  simp

theorem resolve_abs_clean (base cs : List String) (h : ∀ c ∈ cs, cleanComponent c) :
    resolve base ⟨true, cs⟩ = ⟨true, cs⟩ := by
  simp [resolve, normalize_clean cs h]

theorem Path.dirname_abs (l : List String) :
    Path.dirname ⟨true, l⟩ = ⟨true, l.dropLast⟩ := by
  cases l <;> rfl

theorem abs_ne_dirname (l : List String) (h : l ≠ []) :
    (⟨true, l⟩ : Path) ≠ Path.dirname ⟨true, l⟩ := by
  rw [Path.dirname_abs]
  intro he
  have hc : l = l.dropLast := congrArg Path.comps he
  have hlen := congrArg List.length hc
  rw [List.length_dropLast] at hlen
  have : 1 ≤ l.length := List.length_pos.mpr h
  omega

theorem basename_concat (b : Bool) (cs : List String) (fn : String) :
    basename ⟨b, cs ++ [fn]⟩ = fn := by
  simp [basename]

/-- The `relativePath` string emitted for a file under the base directory:
the containing directory when the file is nested below a subdirectory of the
base, the file's own path when it sits directly in the base directory. -/
theorem emittedRelativePath_under_base (base sub : List String) (fn : String)
    (hclean : ∀ c ∈ base ++ (sub ++ [fn]), cleanComponent c) :
    emittedRelativePath base ⟨true, base ++ (sub ++ [fn])⟩ fn =
      if sub = [] then ⟨true, base ++ [fn]⟩ else ⟨true, base ++ sub⟩ := by
  unfold emittedRelativePath
  rw [resolve_abs_clean base _ hclean]
  simp only []
  rw [pathRelative_append]
  by_cases hsub : sub = []
  · subst hsub
    have hlen : ¬(2 ≤ ([] ++ [fn] : List String).length ∧
        ([] ++ [fn] : List String).getLast? = some fn) := by
      intro hc
      simp at hc
    rw [if_neg hlen]
    simp
  · have hcond : 2 ≤ (sub ++ [fn]).length ∧ (sub ++ [fn]).getLast? = some fn := by
      constructor
      · have : 1 ≤ sub.length := List.length_pos.mpr hsub
        simp
        omega
      · simp
    rw [if_pos hcond, if_neg hsub, List.dropLast_concat]

/-! ## Dissection of handleEvent -/

theorem handleEvent_ext_drop (w : FileWatcher) (et : EventType) (dir fp : Path)
    (hne : w.allowedExtensions ≠ []) (hnot : extensionOf fp ∉ w.allowedExtensions) :
    handleEvent w et dir fp = emptyResult := by
  unfold handleEvent
  rw [if_pos ⟨hne, hnot⟩]

theorem handleEvent_ext_pass (w : FileWatcher) (et : EventType) (dir fp : Path)
    (hpass : w.allowedExtensions = [] ∨ extensionOf fp ∈ w.allowedExtensions) :
    handleEvent w et dir fp =
      afterExtensionFilter w et dir fp (basename fp)
        (emittedRelativePath w.baseDir fp (basename fp)) := by
  unfold handleEvent
  rw [if_neg]
  intro hc
  rcases hpass with h1 | h2
  · exact hc.1 h1
  · exact hc.2 h2

theorem afterExtensionFilter_suppress (w : FileWatcher) (dir fp : Path)
    (fn : String) (rp : Path) (hmem : fp ∈ w.initialFiles) :
    afterExtensionFilter w EventType.add dir fp fn rp = emptyResult := by
  unfold afterExtensionFilter
  rw [if_pos ⟨hmem, rfl⟩]

theorem afterExtensionFilter_pass (w : FileWatcher) (et : EventType) (dir fp : Path)
    (fn : String) (rp : Path) (h : ¬(fp ∈ w.initialFiles ∧ et = EventType.add)) :
    afterExtensionFilter w et dir fp fn rp = dispatch w et dir fn rp := by
  unfold afterExtensionFilter
  rw [if_neg h]

theorem dispatch_emissions (w : FileWatcher) (et : EventType) (dir : Path)
    (fn : String) (rp : Path) :
    (dispatch w et dir fn rp).emissions = [(et, dir, fn, rp)] := by
  unfold dispatch
  cases findHandler w.dirHandlers dir et <;> rfl

theorem dispatch_handler_some (w : FileWatcher) (et : EventType) (dir : Path)
    (fn : String) (rp : Path) (cb : Handler)
    (h : findHandler w.dirHandlers dir et = some cb) :
    (dispatch w et dir fn rp).invoked = some (cb, dir, fn, rp, et) ∧
      (dispatch w et dir fn rp).raised = cb.throws := by
  unfold dispatch
  rw [h]
  exact ⟨rfl, rfl⟩

theorem dispatch_handler_none (w : FileWatcher) (et : EventType) (dir : Path)
    (fn : String) (rp : Path) (h : findHandler w.dirHandlers dir et = none) :
    (dispatch w et dir fn rp).invoked = none ∧ (dispatch w et dir fn rp).raised = none := by
  unfold dispatch
  rw [h]
  exact ⟨rfl, rfl⟩

/-! ## findHandler step lemmas and subdirectory priority -/

theorem findHandler_cons_hit (tbl : HandlerTable) (p : Path) (et : EventType)
    (cb : Handler) (hne : p ≠ Path.dirname p) (hhit : tableHit tbl et p = some cb) :
    findHandler tbl p et = some cb := by
  rw [findHandler_eq_firstHit, ancestorChain_cons p hne]
  simp [firstHit, hhit]

theorem findHandler_cons_miss (tbl : HandlerTable) (p : Path) (et : EventType)
    (hne : p ≠ Path.dirname p) (hmiss : tableHit tbl et p = none) :
    findHandler tbl p et = findHandler tbl (Path.dirname p) et := by
  rw [findHandler_eq_firstHit, findHandler_eq_firstHit, ancestorChain_cons p hne]
  simp [firstHit, hmiss]

theorem ne_append_of_ne_nil {α : Type} (a b : List α) (hb : b ≠ []) : a ≠ a ++ b := by
  intro h
  have hlen := congrArg List.length h
  rw [List.length_append] at hlen
  have : 1 ≤ b.length := List.length_pos.mpr hb
  omega

/-- With handlers for kind `k` registered on `/a` and on `/a/b`, resolution from
any directory `/a/b/c` below `/a/b` returns the `/a/b` handler. -/
theorem findHandler_priority (a b : List String) (k : EventType) (cb1 cb2 : Handler)
    (hb : b ≠ []) :
    ∀ c : List String,
      findHandler [(⟨true, a⟩, [(k, cb1)]), (⟨true, a ++ b⟩, [(k, cb2)])]
        ⟨true, a ++ b ++ c⟩ k = some cb2 := by
  intro c
  induction c using List.reverseRecOn with
  | nil =>
    rw [List.append_nil]
    have hab : a ++ b ≠ [] := by
      intro h
      rcases List.append_eq_nil.mp h with ⟨_, h2⟩
      exact hb h2
    apply findHandler_cons_hit _ _ _ _ (abs_ne_dirname _ hab)
    have hne1 : (⟨true, a⟩ : Path) ≠ ⟨true, a ++ b⟩ := by
      intro h
      exact ne_append_of_ne_nil a b hb (congrArg Path.comps h)
    simp only [tableHit, mapGet]
    rw [if_neg hne1]
    simp [mapGet]
  | append_singleton c' x ih =>
    have hassoc : a ++ b ++ (c' ++ [x]) = (a ++ b ++ c') ++ [x] := by
      simp [List.append_assoc]
    rw [hassoc]
    have hnil : (a ++ b ++ c') ++ [x] ≠ [] := by simp
    have hblen : 1 ≤ b.length := List.length_pos.mpr hb
    have hne1 : (⟨true, a⟩ : Path) ≠ ⟨true, (a ++ b ++ c') ++ [x]⟩ := by
      intro h
      have hlen := congrArg (fun q => q.comps.length) h
      simp only [List.length_append, List.length_singleton] at hlen
      omega
    have hne2 : (⟨true, a ++ b⟩ : Path) ≠ ⟨true, (a ++ b ++ c') ++ [x]⟩ := by
      intro h
      have hlen := congrArg (fun q => q.comps.length) h
      simp only [List.length_append, List.length_singleton] at hlen
      omega
    rw [findHandler_cons_miss _ _ _ (abs_ne_dirname _ hnil) ?miss]
    case miss =>
      simp only [tableHit, mapGet]
      rw [if_neg hne1, if_neg hne2]
      rfl
    rw [Path.dirname_abs, List.dropLast_concat]
    exact ih

/-! ## Frame lemmas for the state operations -/

theorem watchDirectory_fields (w : FileWatcher) (d : Path) :
    (watchDirectory w d).initialFiles = w.initialFiles ∧
      (watchDirectory w d).dirHandlers = w.dirHandlers ∧
      (watchDirectory w d).ignoredDirectories = w.ignoredDirectories ∧
      (watchDirectory w d).allowedExtensions = w.allowedExtensions ∧
      (watchDirectory w d).monitoredDirectories = w.monitoredDirectories ∧
      (watchDirectory w d).baseDir = w.baseDir := by
  unfold watchDirectory
  split <;> exact ⟨rfl, rfl, rfl, rfl, rfl, rfl⟩

theorem watchDirectory_mem_self (w : FileWatcher) (d : Path) :
    d ∈ (watchDirectory w d).watchers := by
  unfold watchDirectory
  split
  · assumption
  · exact List.mem_append_right _ (List.mem_singleton.mpr rfl)

theorem watchDirectory_mem_mono (w : FileWatcher) (d p : Path)
    (h : p ∈ w.watchers) : p ∈ (watchDirectory w d).watchers := by
  unfold watchDirectory
  split
  · exact h
  · exact List.mem_append_left _ h

theorem captureInitialFiles_fields (w : FileWatcher) (d : Path)
    (ch : List (String × FsNode)) :
    (captureInitialFiles w d ch).watchers = w.watchers ∧
      (captureInitialFiles w d ch).dirHandlers = w.dirHandlers ∧
      (captureInitialFiles w d ch).ignoredDirectories = w.ignoredDirectories ∧
      (captureInitialFiles w d ch).allowedExtensions = w.allowedExtensions ∧
      (captureInitialFiles w d ch).monitoredDirectories = w.monitoredDirectories ∧
      (captureInitialFiles w d ch).baseDir = w.baseDir :=
  ⟨rfl, rfl, rfl, rfl, rfl, rfl⟩

theorem captureInitialFiles_mono (w : FileWatcher) (d : Path)
    (ch : List (String × FsNode)) {x : Path} (h : x ∈ w.initialFiles) :
    x ∈ (captureInitialFiles w d ch).initialFiles :=
  mem_foldl_setAdd_of_mem _ h

theorem captureInitialFiles_complete (w : FileWatcher) (d : Path)
    (ch : List (String × FsNode)) {x : Path} (h : x ∈ captureFrom d ch) :
    x ∈ (captureInitialFiles w d ch).initialFiles :=
  mem_foldl_setAdd_of_mem_list _ h

theorem foldl_capture_mono (fsTree : Path → List (String × FsNode))
    (dirs : List Path) (w : FileWatcher) {x : Path} (h : x ∈ w.initialFiles) :
    x ∈ (dirs.foldl (fun acc d => captureInitialFiles acc d (fsTree d)) w).initialFiles := by
  induction dirs generalizing w with
  | nil => exact h
  | cons d rest ih => exact ih _ (captureInitialFiles_mono w d (fsTree d) h)

theorem foldl_capture_complete (fsTree : Path → List (String × FsNode))
    (dirs : List Path) (w : FileWatcher) {d : Path} {x : Path} (hd : d ∈ dirs)
    (h : x ∈ captureFrom d (fsTree d)) :
    x ∈ (dirs.foldl (fun acc d => captureInitialFiles acc d (fsTree d)) w).initialFiles := by
  induction dirs generalizing w with
  | nil => cases hd
  | cons d0 rest ih =>
    rcases List.mem_cons.mp hd with h1 | h2
    · subst h1
      exact foldl_capture_mono fsTree rest _ (captureInitialFiles_complete w d (fsTree d) h)
    · exact ih _ h2

theorem foldl_watch_initialFiles (dirs : List Path) (w : FileWatcher) :
    (dirs.foldl (fun acc d => watchDirectory acc d) w).initialFiles = w.initialFiles := by
  induction dirs generalizing w with
  | nil => rfl
  | cons d rest ih =>
    rw [List.foldl_cons, ih]
    exact (watchDirectory_fields w d).1

theorem startWatching_mono (fsTree : Path → List (String × FsNode)) (w : FileWatcher)
    {x : Path} (h : x ∈ w.initialFiles) : x ∈ (startWatching fsTree w).initialFiles := by
  unfold startWatching
  rw [foldl_watch_initialFiles]
  exact foldl_capture_mono fsTree _ w h

theorem startWatching_complete (fsTree : Path → List (String × FsNode))
    (w : FileWatcher) {d x : Path} (hd : d ∈ effectiveDirectories w)
    (h : x ∈ captureFrom d (fsTree d)) : x ∈ (startWatching fsTree w).initialFiles := by
  unfold startWatching
  rw [foldl_watch_initialFiles]
  exact foldl_capture_complete fsTree _ w hd h

theorem setHandler_initialFiles (w : FileWatcher) (d : Path) (et : EventType)
    (cb : Handler) : (setHandler w d et cb).initialFiles = w.initialFiles := by
  unfold setHandler
  exact (watchDirectory_fields _ d).1

theorem ignoreDirectory_foldAcc (fsExists : String → Bool) (dirs : List String) :
    ∀ acc : FileWatcher × List String,
      ((dirs.foldl
        (fun acc dir =>
          if fsExists dir then
            ({ acc.1 with ignoredDirectories := setAdd acc.1.ignoredDirectories dir }, acc.2)
          else
            (acc.1, acc.2 ++ [ignoreWarning dir]))
        acc).1).initialFiles = acc.1.initialFiles := by
  induction dirs with
  | nil => intro acc; rfl
  | cons d rest ih =>
    intro acc
    rw [List.foldl_cons]
    rw [ih]
    split <;> rfl

theorem ignoreDirectory_initialFiles (fsExists : String → Bool) (w : FileWatcher)
    (dirs : List String) :
    (ignoreDirectory fsExists w dirs).1.initialFiles = w.initialFiles :=
  ignoreDirectory_foldAcc fsExists dirs (w, [])

theorem unignoreDirectory_foldAcc (dirs : List String) :
    ∀ acc : FileWatcher × List String,
      ((dirs.foldl
        (fun acc dir =>
          if dir ∈ acc.1.ignoredDirectories then
            ({ acc.1 with ignoredDirectories := setDelete acc.1.ignoredDirectories dir }, acc.2)
          else
            (acc.1, acc.2 ++ [unignoreWarning dir]))
        acc).1).initialFiles = acc.1.initialFiles := by
  induction dirs with
  | nil => intro acc; rfl
  | cons d rest ih =>
    intro acc
    rw [List.foldl_cons]
    rw [ih]
    split <;> rfl

theorem unignoreDirectory_initialFiles (w : FileWatcher) (dirs : List String) :
    (unignoreDirectory w dirs).1.initialFiles = w.initialFiles :=
  unignoreDirectory_foldAcc dirs (w, [])

/-! ## Lemmas about setHandler -/

theorem setHandler_handlerAt_self (w : FileWatcher) (d : Path) (et : EventType)
    (cb : Handler) : handlerAt (setHandler w d et cb) d et = some cb := by
  unfold setHandler handlerAt
  rw [(watchDirectory_fields _ d).2.1]
  simp only []
  rw [mapGet_mapSet_self]
  simp only [Option.some_bind]
  rw [mapGet_mapSet_self]

theorem setHandler_mem_watchers (w : FileWatcher) (d : Path) (et : EventType)
    (cb : Handler) : d ∈ (setHandler w d et cb).watchers := by
  unfold setHandler
  exact watchDirectory_mem_self _ d

theorem setHandler_frame (w : FileWatcher) (d : Path) (et : EventType) (cb : Handler)
    (d' : Path) (et' : EventType) (h : ¬(d' = d ∧ et' = et)) :
    handlerAt (setHandler w d et cb) d' et' = handlerAt w d' et' := by
  unfold setHandler handlerAt
  rw [(watchDirectory_fields _ d).2.1]
  simp only []
  by_cases hd : d' = d
  · subst hd
    have het : et' ≠ et := fun he => h ⟨rfl, he⟩
    rw [mapGet_mapSet_self]
    simp only [Option.some_bind]
    rw [mapGet_mapSet_ne _ _ _ _ het]
    cases hm : mapGet w.dirHandlers d' with
    | none => simp [mapGet]
    | some hs => simp
  · rw [mapGet_mapSet_ne _ _ _ _ hd]

/-! ## Lemmas about ignore and unignore -/

theorem ignoreDirectory_missing (fsExists : String → Bool) (w : FileWatcher)
    (d : String) (h : fsExists d = false) :
    ignoreDirectory fsExists w [d] = (w, [ignoreWarning d]) := by
  unfold ignoreDirectory
  simp [h]

theorem unignoreDirectory_not_ignored (w : FileWatcher) (d : String)
    (h : d ∉ w.ignoredDirectories) :
    unignoreDirectory w [d] = (w, [unignoreWarning d]) := by
  unfold unignoreDirectory
  simp [h]

/-! ## Claim theorems -/

/-- A freshly constructed watcher whose working directory is `/base`. -/
def wBase : FileWatcher :=
  { baseDir := ["base"] }

/-- C1. The claim states that the ignore predicate returns true exactly when the
candidate lies under some ignored directory. On the code this fails: with
`/base/a` ignored, the installed predicate (which never looks at its candidate
and tests a string for truthiness) returns true for `/base/b/f.txt`, a path in a
sibling directory, although the specified predicate — lying under some ignored
directory — is false there. Every candidate is thus suppressed as soon as the
ignore set is non-empty. -/
theorem c1_ignore_predicate_code_bug :
    ignoredPredicate { wBase with ignoredDirectories := ["/base/a"] } "/base/b/f.txt" = true ∧
    specIgnoresCandidate [⟨true, ["base", "a"]⟩] ⟨true, ["base", "b", "f.txt"]⟩ = false := by
  decide

/-- C2. Initial-scan suppression: for an "add" notification that passed the
extension filter, membership of the raw file path in `initialFiles` drops the
event entirely (no emission, no handler call), and a path not in `initialFiles`
is not dropped by this rule (the generic emission is produced). -/
theorem c2_initial_scan_suppression (w : FileWatcher) (dir fp : Path)
    (hpass : w.allowedExtensions = [] ∨ extensionOf fp ∈ w.allowedExtensions) :
    (fp ∈ w.initialFiles → handleEvent w EventType.add dir fp = emptyResult) ∧
    (fp ∉ w.initialFiles →
      (handleEvent w EventType.add dir fp).emissions =
        [(EventType.add, dir, basename fp, emittedRelativePath w.baseDir fp (basename fp))]) := by
  constructor
  · intro hmem
    rw [handleEvent_ext_pass w EventType.add dir fp hpass]
    exact afterExtensionFilter_suppress w dir fp _ _ hmem
  · intro hmem
    rw [handleEvent_ext_pass w EventType.add dir fp hpass,
      afterExtensionFilter_pass w EventType.add dir fp _ _ (fun hc => hmem hc.1)]
    exact dispatch_emissions w EventType.add dir _ _

theorem c2_witness :
    handleEvent { wBase with initialFiles := [⟨true, ["base", "a.txt"]⟩] } EventType.add
        ⟨true, ["base"]⟩ ⟨true, ["base", "a.txt"]⟩ = emptyResult ∧
    (handleEvent wBase EventType.add ⟨true, ["base"]⟩ ⟨true, ["base", "b.txt"]⟩).emissions =
      [(EventType.add, ⟨true, ["base"]⟩, "b.txt", ⟨true, ["base", "b.txt"]⟩)] := by
  constructor
  · exact (c2_initial_scan_suppression _ _ _ (Or.inl rfl)).1 (by decide)
  · have h := (c2_initial_scan_suppression wBase ⟨true, ["base"]⟩
      ⟨true, ["base", "b.txt"]⟩ (Or.inl rfl)).2 (by decide)
    rw [h]
    decide

/-- C3. `findHandler` walks from the directory upward through parents (stopping
where parent-of-X equals X) and returns the first registered callback on that
walk, none if the walk ends without a match; consequently a handler registered
on a subdirectory takes priority over one registered on an ancestor for the
same event kind. -/
theorem c3_find_handler_walk :
    (∀ (tbl : HandlerTable) (p : Path) (et : EventType),
        findHandler tbl p et = firstHit (tableHit tbl et) (ancestorChain p)) ∧
    (∀ (a b c : List String) (k : EventType) (cb1 cb2 : Handler), b ≠ [] →
        findHandler [(⟨true, a⟩, [(k, cb1)]), (⟨true, a ++ b⟩, [(k, cb2)])]
          ⟨true, a ++ b ++ c⟩ k = some cb2) :=
  ⟨findHandler_eq_firstHit,
    fun a b c k cb1 cb2 hb => findHandler_priority a b k cb1 cb2 hb c⟩

theorem c3_witness :
    findHandler [(⟨true, ["a"]⟩, [(EventType.change, ⟨1, none⟩)]),
        (⟨true, ["a"] ++ ["b"]⟩, [(EventType.change, ⟨2, none⟩)])]
      ⟨true, ["a"] ++ ["b"] ++ ["c"]⟩ EventType.change = some ⟨2, none⟩ :=
  c3_find_handler_walk.2 ["a"] ["b"] ["c"] EventType.change ⟨1, none⟩ ⟨2, none⟩ (by decide)

/-- C4 (amended). `setHandler` stores the directory key exactly as given — the
source performs no resolution to absolute form — ensures a subscription exists
for that key (with no precondition that watching has started), and stores the
`(eventKind → callback)` entry, overwriting any previous callback for the same
`(directory, eventKind)` pair while leaving every other pair unchanged. -/
theorem c4_set_handler_amended (w : FileWatcher) (d : Path) (et : EventType)
    (cb : Handler) :
    handlerAt (setHandler w d et cb) d et = some cb ∧
    d ∈ (setHandler w d et cb).watchers ∧
    (∀ (d' : Path) (et' : EventType), ¬(d' = d ∧ et' = et) →
      handlerAt (setHandler w d et cb) d' et' = handlerAt w d' et') :=
  ⟨setHandler_handlerAt_self w d et cb, setHandler_mem_watchers w d et cb,
    fun d' et' h => setHandler_frame w d et cb d' et' h⟩

theorem c4_witness :
    handlerAt (setHandler wBase ⟨false, [".", "test"]⟩ EventType.add ⟨7, none⟩)
        ⟨false, [".", "test"]⟩ EventType.add = some ⟨7, none⟩ ∧
    handlerAt (setHandler wBase ⟨false, [".", "test"]⟩ EventType.add ⟨7, none⟩)
        ⟨true, ["other"]⟩ EventType.change =
      handlerAt wBase ⟨true, ["other"]⟩ EventType.change := by
  refine ⟨(c4_set_handler_amended wBase _ _ _).1,
    (c4_set_handler_amended wBase _ _ _).2.2 _ _ ?_⟩
  decide

/-- C4, counterexample to the claim as stated: registering a handler for the
relative directory `./test` stores the raw key `./test`; nothing is stored
under the resolved absolute form `/base/test`, so `setHandler` does not resolve
the directory before storing it. -/
theorem c4_cex :
    resolve wBase.baseDir ⟨false, [".", "test"]⟩ = ⟨true, ["base", "test"]⟩ ∧
    handlerAt (setHandler wBase ⟨false, [".", "test"]⟩ EventType.add ⟨7, none⟩)
        ⟨true, ["base", "test"]⟩ EventType.add = none ∧
    handlerAt (setHandler wBase ⟨false, [".", "test"]⟩ EventType.add ⟨7, none⟩)
        ⟨false, [".", "test"]⟩ EventType.add = some ⟨7, none⟩ := by
  decide

/-- C5 (amended). For a surviving notification on a file under the base
directory, the relativePath value passed to the generic emission and to the
resolved handler is: the containing directory's absolute path when the file
lies at least one directory below the base, but the file's own path when the
file sits directly in the base directory (there the separator-anchored strip of
the trailing filename does not match). -/
theorem c5_relative_path_amended (w : FileWatcher) (et : EventType) (dir : Path)
    (sub : List String) (fn : String)
    (hclean : ∀ c ∈ w.baseDir ++ (sub ++ [fn]), cleanComponent c)
    (hpass : w.allowedExtensions = [] ∨
      extensionOf ⟨true, w.baseDir ++ (sub ++ [fn])⟩ ∈ w.allowedExtensions)
    (hnosup : ¬(⟨true, w.baseDir ++ (sub ++ [fn])⟩ ∈ w.initialFiles ∧
      et = EventType.add)) :
    (handleEvent w et dir ⟨true, w.baseDir ++ (sub ++ [fn])⟩).emissions =
      [(et, dir, fn,
        if sub = [] then ⟨true, w.baseDir ++ [fn]⟩ else ⟨true, w.baseDir ++ sub⟩)] ∧
    (handleEvent w et dir ⟨true, w.baseDir ++ (sub ++ [fn])⟩).invoked =
      Option.map
        (fun cb => (cb, dir, fn,
          (if sub = [] then ⟨true, w.baseDir ++ [fn]⟩
            else ⟨true, w.baseDir ++ sub⟩ : Path), et))
        (findHandler w.dirHandlers dir et) := by
  have hbn : basename ⟨true, w.baseDir ++ (sub ++ [fn])⟩ = fn := by
    have ha : w.baseDir ++ (sub ++ [fn]) = (w.baseDir ++ sub) ++ [fn] := by
      simp [List.append_assoc]
    rw [ha]
    exact basename_concat true _ fn
  have hrp := emittedRelativePath_under_base w.baseDir sub fn hclean
  rw [handleEvent_ext_pass w et dir _ hpass,
    afterExtensionFilter_pass w et dir _ _ _ hnosup, hbn, hrp]
  constructor
  · exact dispatch_emissions w et dir _ _
  · unfold dispatch
    cases findHandler w.dirHandlers dir et <;> rfl

theorem c5_witness :
    (handleEvent wBase EventType.change ⟨true, ["base"]⟩
        ⟨true, wBase.baseDir ++ (["sub"] ++ ["foo.txt"])⟩).emissions =
      [(EventType.change, ⟨true, ["base"]⟩, "foo.txt", ⟨true, ["base", "sub"]⟩)] ∧
    (handleEvent wBase EventType.change ⟨true, ["base"]⟩
        ⟨true, wBase.baseDir ++ (["sub"] ++ ["foo.txt"])⟩).invoked = none := by
  have h := c5_relative_path_amended wBase EventType.change ⟨true, ["base"]⟩
    ["sub"] "foo.txt" (by decide) (Or.inl rfl) (by decide)
  constructor
  · rw [h.1]
    decide
  · rw [h.2]
    decide

/-- C5, counterexample to the claim as stated: for a file directly inside the
base directory the emitted relativePath equals the file's own path
`/base/foo.txt`, not the containing directory `/base`. -/
theorem c5_cex :
    (handleEvent wBase EventType.change ⟨true, ["base"]⟩
        ⟨true, ["base", "foo.txt"]⟩).emissions =
      [(EventType.change, ⟨true, ["base"]⟩, "foo.txt", ⟨true, ["base", "foo.txt"]⟩)] ∧
    (⟨true, ["base", "foo.txt"]⟩ : Path) ≠ ⟨true, ["base"]⟩ := by
  decide

/-- C6. Extension filter: with a non-empty allowed set not containing the
file's lowercased extension, the event is dropped with no emission and no
handler call; with an empty allowed set, the filter drops nothing — the event
proceeds to the rest of the dispatch unchanged. -/
theorem c6_extension_filter (w : FileWatcher) (et : EventType) (dir fp : Path) :
    (w.allowedExtensions ≠ [] → extensionOf fp ∉ w.allowedExtensions →
      handleEvent w et dir fp = emptyResult) ∧
    (w.allowedExtensions = [] →
      handleEvent w et dir fp =
        afterExtensionFilter w et dir fp (basename fp)
          (emittedRelativePath w.baseDir fp (basename fp))) :=
  ⟨fun h1 h2 => handleEvent_ext_drop w et dir fp h1 h2,
    fun h => handleEvent_ext_pass w et dir fp (Or.inl h)⟩

theorem c6_witness :
    handleEvent { wBase with allowedExtensions := [".js"] } EventType.change
        ⟨true, ["base"]⟩ ⟨true, ["base", "foo.txt"]⟩ = emptyResult ∧
    handleEvent wBase EventType.change ⟨true, ["base"]⟩ ⟨true, ["base", "foo.txt"]⟩ =
      afterExtensionFilter wBase EventType.change ⟨true, ["base"]⟩
        ⟨true, ["base", "foo.txt"]⟩ (basename ⟨true, ["base", "foo.txt"]⟩)
        (emittedRelativePath wBase.baseDir ⟨true, ["base", "foo.txt"]⟩
          (basename ⟨true, ["base", "foo.txt"]⟩)) :=
  ⟨(c6_extension_filter _ _ _ _).1 (by decide) (by decide),
    (c6_extension_filter _ _ _ _).2 rfl⟩

/-- C7 (amended). The router installs no per-event catch around the resolved
handler: the exception escaping `handleEvent` is exactly what the callback
raises, while the generic emission has already occurred and the invocation is
recorded; `handleEvent` mutates no state, so no subscription is closed. -/
theorem c7_handler_error_amended (w : FileWatcher) (et : EventType) (dir fp : Path)
    (cb : Handler)
    (hpass : w.allowedExtensions = [] ∨ extensionOf fp ∈ w.allowedExtensions)
    (hnosup : ¬(fp ∈ w.initialFiles ∧ et = EventType.add))
    (hfh : findHandler w.dirHandlers dir et = some cb) :
    (handleEvent w et dir fp).raised = cb.throws ∧
    (handleEvent w et dir fp).emissions =
      [(et, dir, basename fp, emittedRelativePath w.baseDir fp (basename fp))] ∧
    (handleEvent w et dir fp).invoked =
      some (cb, dir, basename fp, emittedRelativePath w.baseDir fp (basename fp), et) := by
  rw [handleEvent_ext_pass w et dir fp hpass,
    afterExtensionFilter_pass w et dir fp _ _ hnosup]
  exact ⟨(dispatch_handler_some w et dir _ _ cb hfh).2, dispatch_emissions w et dir _ _,
    (dispatch_handler_some w et dir _ _ cb hfh).1⟩

/-- A watcher with a handler that raises "boom" registered on `/base/d`. -/
def wThrow : FileWatcher :=
  { wBase with
    dirHandlers := [(⟨true, ["base", "d"]⟩, [(EventType.change, ⟨1, some ("boom")⟩)])] }

theorem c7_witness :
    (handleEvent wThrow EventType.change ⟨true, ["base", "d"]⟩
        ⟨true, ["base", "d", "g.txt"]⟩).raised = some ("boom") := by
  have h := c7_handler_error_amended wThrow EventType.change ⟨true, ["base", "d"]⟩
    ⟨true, ["base", "d", "g.txt"]⟩ ⟨1, some ("boom")⟩ (Or.inl rfl) (by decide) (by decide)
  exact h.1

/-- C7, counterexample to the claim as stated: a callback that raises is not
caught per event — the error escapes the `handleEvent` dispatch. -/
theorem c7_cex :
    (handleEvent wThrow EventType.change ⟨true, ["base", "d"]⟩
        ⟨true, ["base", "d", "f.txt"]⟩).raised = some ("boom") := by
  decide

/-- C8. `stopWatching` closes every subscription (returning exactly the list of
open watchers as the closed ones) and clears the registry, while leaving the
handler table, ignore set, allowed extensions, monitored directories and
initial files unchanged; on an engine that never started watching it is a
no-op. -/
theorem c8_stop_watching (w : FileWatcher) :
    (stopWatching w).2 = w.watchers ∧
    (stopWatching w).1.watchers = [] ∧
    (stopWatching w).1.dirHandlers = w.dirHandlers ∧
    (stopWatching w).1.ignoredDirectories = w.ignoredDirectories ∧
    (stopWatching w).1.allowedExtensions = w.allowedExtensions ∧
    (stopWatching w).1.monitoredDirectories = w.monitoredDirectories ∧
    (stopWatching w).1.initialFiles = w.initialFiles ∧
    (w.watchers = [] → stopWatching w = (w, [])) := by
  refine ⟨rfl, rfl, rfl, rfl, rfl, rfl, rfl, fun h => ?_⟩
  obtain ⟨bd, ws, dh, ig, al, mo, ini⟩ := w
  simp only at h
  subst h
  rfl

theorem c8_witness :
    stopWatching wBase = (wBase, []) ∧
    (stopWatching wBase).1.dirHandlers = wBase.dirHandlers :=
  ⟨(c8_stop_watching wBase).2.2.2.2.2.2.2 rfl, (c8_stop_watching wBase).2.2.1⟩

/-- C9 (amended). Ignoring a directory that does not exist produces a warning
and does not record the directory (the ignore set is left unchanged, contrary
to the claim's "still recorded"); unignoring a directory that was never ignored
produces a warning and leaves the ignore set unchanged. -/
theorem c9_config_warning_amended (fsExists : String → Bool) (w : FileWatcher)
    (d : String) :
    (fsExists d = false → ignoreDirectory fsExists w [d] = (w, [ignoreWarning d])) ∧
    (d ∉ w.ignoredDirectories → unignoreDirectory w [d] = (w, [unignoreWarning d])) :=
  ⟨fun h => ignoreDirectory_missing fsExists w d h,
    fun h => unignoreDirectory_not_ignored w d h⟩

theorem c9_witness :
    ignoreDirectory (fun _ => false) wBase ["/nope"] = (wBase, [ignoreWarning ("/nope")]) ∧
    unignoreDirectory wBase ["/other"] = (wBase, [unignoreWarning ("/other")]) :=
  ⟨(c9_config_warning_amended (fun _ => false) wBase ("/nope")).1 rfl,
    (c9_config_warning_amended (fun _ => false) wBase ("/other")).2 (by decide)⟩

/-- C9, counterexample to the claim as stated: ignoring the non-existent
`/nope` leaves the ignore set empty — the directory is not recorded, only the
warning is produced. -/
theorem c9_cex :
    (ignoreDirectory (fun _ => false) wBase ["/nope"]).1.ignoredDirectories = [] ∧
    (ignoreDirectory (fun _ => false) wBase ["/nope"]).2 = [ignoreWarning ("/nope")] := by
  decide

/-- C10. `initialFiles` only ever grows: no operation of the engine removes
elements from it — `stopWatching` preserves it exactly, `startWatching` and
`captureInitialFiles` only add, and every configuration operation leaves it
untouched. After a stop-and-restart, every file enumerated at the second
`startWatching` is in `initialFiles`, the previously captured files remain, and
a subsequent "add" notification for any member (passing the extension filter)
is suppressed. -/
theorem c10_initial_files_monotone (fsTree : Path → List (String × FsNode))
    (w : FileWatcher) (x : Path) :
    ((stopWatching w).1.initialFiles = w.initialFiles) ∧
    (x ∈ w.initialFiles → x ∈ (startWatching fsTree w).initialFiles) ∧
    (∀ d : Path, x ∈ w.initialFiles →
      x ∈ (captureInitialFiles w d (fsTree d)).initialFiles) ∧
    (∀ (d : Path) (et : EventType) (cb : Handler),
      (setHandler w d et cb).initialFiles = w.initialFiles) ∧
    (∀ (fsE : String → Bool) (ds : List String),
      (ignoreDirectory fsE w ds).1.initialFiles = w.initialFiles) ∧
    (∀ ds : List String, (unignoreDirectory w ds).1.initialFiles = w.initialFiles) ∧
    (∀ es : List String, (setAllowedExtensions w es).initialFiles = w.initialFiles) ∧
    (∀ ds : List Path, (setMonitoredDirectories w ds).initialFiles = w.initialFiles) ∧
    (∀ d : Path, (watchDirectory w d).initialFiles = w.initialFiles) ∧
    (x ∈ w.initialFiles → x ∈ (startWatching fsTree (stopWatching w).1).initialFiles) ∧
    (∀ d ∈ effectiveDirectories (stopWatching w).1, x ∈ captureFrom d (fsTree d) →
      x ∈ (startWatching fsTree (stopWatching w).1).initialFiles) ∧
    (∀ dir : Path, x ∈ w.initialFiles →
      (w.allowedExtensions = [] ∨ extensionOf x ∈ w.allowedExtensions) →
      handleEvent w EventType.add dir x = emptyResult) := by
  refine ⟨rfl, fun h => startWatching_mono fsTree w h,
    fun d h => captureInitialFiles_mono w d (fsTree d) h,
    fun d et cb => setHandler_initialFiles w d et cb,
    fun fsE ds => ignoreDirectory_initialFiles fsE w ds,
    fun ds => unignoreDirectory_initialFiles w ds,
    fun es => rfl, fun ds => rfl,
    fun d => (watchDirectory_fields w d).1,
    fun h => startWatching_mono fsTree _ h,
    fun d hd hx => startWatching_complete fsTree _ hd hx,
    fun dir hx hpass => ?_⟩
  rw [handleEvent_ext_pass w EventType.add dir x hpass]
  exact afterExtensionFilter_suppress w dir x _ _ hx

/-- A one-file filesystem: `/base` contains the single regular file `a.txt`. -/
def fsT : Path → List (String × FsNode) :=
  fun p => if p = ⟨true, ["base"]⟩ then [("a.txt", FsNode.file)] else []

theorem c10_witness :
    (⟨true, ["base", "a.txt"]⟩ : Path) ∈
      (startWatching fsT (stopWatching wBase).1).initialFiles ∧
    handleEvent { wBase with initialFiles := [⟨true, ["base", "x.txt"]⟩] }
      EventType.add ⟨true, ["base"]⟩ ⟨true, ["base", "x.txt"]⟩ = emptyResult := by
  constructor
  · exact (c10_initial_files_monotone fsT wBase
      ⟨true, ["base", "a.txt"]⟩).2.2.2.2.2.2.2.2.2.2.1 ⟨true, ["base"]⟩ (by decide)
      (by decide)
  · exact (c10_initial_files_monotone fsT
      { wBase with initialFiles := [⟨true, ["base", "x.txt"]⟩] }
      ⟨true, ["base", "x.txt"]⟩).2.2.2.2.2.2.2.2.2.2.2 ⟨true, ["base"]⟩ (by decide)
      (Or.inl rfl)

end FileWatcherSpec
